import Mathlib

/-!
Verification of the extraction/classification core of the Facebook
Marketplace scraper (src/scraper.py).

The shallow embedding below translates the pure, line-oriented extraction
logic of the source into Lean:

* `findItemId` — the identifier resolver, embedding
  `re.search(r'/marketplace/item/(\d+)', href)` followed by `.group(1)`.
* `parse_listing_text` — embedding `_parse_listing_text`.
* `extract_listings_from_page` — the per-anchor loop shared verbatim by
  `extract_listings_from_page_sync` and `extract_listings_from_page_async`
  (both loops have identical bodies); the browser collaborator calls are
  abstracted into `Anchor` descriptors (href, inner text, image source).
* `phaseA`, `windowScan`, `get_listing_details` — the body-text parsing of
  `get_listing_details_async` (global marker scan, "Details"-anchored
  window scan, and the title fallback), taking the already-normalized
  line sequence as input.

Python string primitives are embedded as structurally recursive functions
over `List Char` so that every definition evaluates by kernel reduction:
`splitNl`/`trimStr` for `str.split('\n')`/`str.strip`, `startsWithL` for
`str.startswith`, `containsSub` for Python's `in` substring test,
`toLowerStr` for `str.lower` (ASCII case mapping, which covers every
character class the source's regexes use), and `joinNl` for
`'\n'.join`.  Character classes `\d`, `\s` are modeled as the decimal
digits and whitespace characters relevant to the scraped ASCII text.
-/

namespace Scraper

/-- Python `str.startswith(pat)`. -/
def startsWithL (s pat : String) : Bool :=
  pat.toList.isPrefixOf s.toList

/-- Scan for an occurrence of `pat` at any suffix. -/
def subAux (pat : List Char) : List Char → Bool
  | [] => pat.isEmpty
  | c :: rest => pat.isPrefixOf (c :: rest) || subAux pat rest

/-- Python `pat in s` (substring containment). -/
def containsSub (s pat : String) : Bool :=
  subAux pat.toList s.toList

/-- Python `str.lower()` restricted to ASCII case mapping. -/
def toLowerStr (s : String) : String :=
  String.mk (s.toList.map Char.toLower)

/-- Whitespace stripped by Python `str.strip()` on the text at hand. -/
def isSpaceChar (c : Char) : Bool := c.isWhitespace

/-- Python `str.strip()`. -/
def trimStr (s : String) : String :=
  String.mk (((s.toList.dropWhile isSpaceChar).reverse.dropWhile isSpaceChar).reverse)

/-- Split a character list at newline characters; Python `str.split('\n')`
(`splitNlAux cs [] ` yields one chunk per physical line, `[""]` included for
empty input, exactly as in Python). -/
def splitNlAux : List Char → List Char → List (List Char)
  | [], acc => [acc.reverse]
  | c :: rest, acc =>
    if c = '\n' then acc.reverse :: splitNlAux rest []
    else splitNlAux rest (c :: acc)

/-- Python `str.split('\n')`. -/
def splitNl (s : String) : List String :=
  (splitNlAux s.toList []).map String.mk

/-- The line normalizer shared by both pipelines:
`[line.strip() for line in text.split('\n') if line.strip()]`. -/
def normalizeLines (txt : String) : List String :=
  ((splitNl txt).map trimStr).filter (fun l => l ≠ "")

/-- Python `'\n'.join(lines)`. -/
def joinNl : List String → String
  | [] => ""
  | [l] => l
  | l :: rest => l ++ "\n" ++ joinNl rest

/-- The currency class `[\$£€]` of the source's price regexes. -/
def isCurrency (c : Char) : Bool := c = '$' || c = '£' || c = '€'

/-- The character class `[\d,\.]` of the source's price regexes. -/
def isNumChar (c : Char) : Bool := c.isDigit || c = ',' || c = '.'

/-! ## Identifier resolver

`re.search(r'/marketplace/item/(\d+)', href)` then `match.group(1)`:
scan left to right for the first position where the literal segment is
followed by at least one digit; the captured group is the maximal digit
run there (`\d+` is greedy and the digit class is disjoint from what may
follow, so the leftmost match captures the maximal run). -/

/-- The literal path segment of the identifier regex. -/
def segChars : List Char := "/marketplace/item/".toList

/-- Maximal digit-run prefix of a character list (the greedy `(\d+)`). -/
def takeDigits : List Char → List Char
  | [] => []
  | c :: rest => if c.isDigit then c :: takeDigits rest else []

/-- Does the full pattern `/marketplace/item/(\d+)` match at the head? -/
def matchAtHead (cs : List Char) : Bool :=
  segChars.isPrefixOf cs &&
    (match cs.drop segChars.length with
     | d :: _ => d.isDigit
     | [] => false)

/-- Leftmost-match search, as `re.search` performs for this pattern. -/
def findIdAux : List Char → Option String
  | [] => none
  | c :: rest =>
    if matchAtHead (c :: rest) then
      some (String.mk (takeDigits ((c :: rest).drop segChars.length)))
    else findIdAux rest

/-- The identifier resolver applied to an href string. -/
def findItemId (href : String) : Option String :=
  findIdAux href.toList

/-- Spec-side rendering of "the first such segment": the least position
at which the segment-followed-by-a-digit pattern matches. -/
def specFirstSeg (cs : List Char) : Option Nat :=
  (List.range cs.length).find? (fun p => matchAtHead (cs.drop p))

/-! ## Field classifier and summary extractor -/

/-- `re.match(r'^[\$£€][\d,\.]+', line)`: currency symbol immediately
followed by at least one digit/comma/period (prefix match). -/
def priceSym (l : String) : Bool :=
  match l.toList with
  | c :: d :: _ => isCurrency c && isNumChar d
  | _ => false

/-- `re.match(r'^[\d,\.]+\s*[\$£€]', line)`: the three classes are
pairwise disjoint, so the greedy prefix scan is the only possible match. -/
def priceNumSym (l : String) : Bool :=
  let cs := l.toList
  let ds := cs.takeWhile isNumChar
  !ds.isEmpty &&
    (match ((cs.drop ds.length).dropWhile isSpaceChar) with
     | c :: _ => isCurrency c
     | [] => false)

/-- The summary extractor's price test:
`re.match(r'^[\$£€][\d,\.]+', line) or re.match(r'^[\d,\.]+\s*[\$£€]', line)
 or line.lower() == 'free'`. -/
def isPriceLine (l : String) : Bool :=
  priceSym l || priceNumSym l || (toLowerStr l = "free")

/-- `re.match(r'^\d+$', line)`: the line consists solely of digits. -/
def isBareNumber (l : String) : Bool :=
  !l.toList.isEmpty && l.toList.all Char.isDigit

/-- Accumulator of `_parse_listing_text`'s greedy role assignment. -/
structure SummaryAcc where
  title : String
  price : String
  location : String
deriving DecidableEq

/-- One iteration of `_parse_listing_text`'s loop. -/
def parseStep (st : SummaryAcc) (line : String) : SummaryAcc :=
  if isPriceLine line then
    (if st.price = "" then { st with price := line } else st)
  else if st.title = "" ∧ line.length > 2 ∧ isBareNumber line = false then
    { st with title := line }
  else if st.title ≠ "" ∧ st.location = "" ∧ line.length > 2 then
    { st with location := line }
  else st

/-- `_parse_listing_text(all_text)`, returning (title, price, location). -/
def parse_listing_text (txt : String) : String × String × String :=
  let st := (normalizeLines txt).foldl parseStep ⟨"", "", ""⟩
  (st.title, st.price, st.location)

/-- An anchor descriptor: href, inner visible text, optional image src. -/
structure Anchor where
  href : String
  text : String
  img : Option String
deriving DecidableEq

/-- The summary record emitted per unique identifier. -/
structure MarketplaceListing where
  listing_id : String
  title : String
  price : String
  location : String
  url : String
  image_url : Option String
deriving DecidableEq

/-- The record built for one processed anchor: classify the inner text
(`link.inner_text().strip()` then `_parse_listing_text`), emit only when
title or price is non-empty, and apply the two fallbacks. -/
def mkListing (id : String) (a : Anchor) : Option MarketplaceListing :=
  let t := (parse_listing_text (trimStr a.text)).1
  let p := (parse_listing_text (trimStr a.text)).2.1
  let loc := (parse_listing_text (trimStr a.text)).2.2
  if t ≠ "" ∨ p ≠ "" then
    some { listing_id := id
           title := if t = "" then "Listing " ++ id else t
           price := if p = "" then "Price not listed" else p
           location := loc
           url := "https://www.facebook.com/marketplace/item/" ++ id
           image_url := a.img }
  else none

/-- The per-anchor loop of `extract_listings_from_page_sync` (the async
variant's loop body is identical): resolve the identifier, skip on
failure, skip identifiers already in `seen_ids` (which is extended
whether or not a record ends up emitted), then classify and emit. -/
def goListings : List Anchor → List String → List MarketplaceListing
  | [], _ => []
  | a :: rest, seen =>
    match findItemId a.href with
    | none => goListings rest seen
    | some id =>
      if id ∈ seen then goListings rest seen
      else
        match mkListing id a with
        | some r => r :: goListings rest (id :: seen)
        | none => goListings rest (id :: seen)

/-- `extract_listings_from_page_sync` / `_async`, starting from an empty
`seen_ids` set. -/
def extract_listings_from_page (anchors : List Anchor) : List MarketplaceListing :=
  goListings anchors []

/-- The sequence of identifiers in first-seen (first successfully
resolved) order, mirroring the dedup structure of the anchor loop. -/
def firstSeenIds : List Anchor → List String → List String
  | [], _ => []
  | a :: rest, seen =>
    match findItemId a.href with
    | none => firstSeenIds rest seen
    | some id =>
      if id ∈ seen then firstSeenIds rest seen
      else id :: firstSeenIds rest (id :: seen)

/-! ## Detail extractor

`get_listing_details_async` first normalizes the page body text, then runs
a global marker scan (phase A), then — when the `Details` index is truthy —
a window scan over the 19 indices `details_idx+1 .. min(details_idx+20,
len(lines))-1`, and finally a fallback title scan over all lines. -/

/-- Accumulator of the global marker scan (phase A). -/
structure AState where
  price : String
  location : String
  condition : Option String
  listed_date : Option String
deriving DecidableEq

/-- `re.match(r'^[\$£€][\d,\.]+$', line)`: full-line currency price. -/
def priceFull (l : String) : Bool :=
  match l.toList with
  | c :: rest => isCurrency c && !rest.isEmpty && rest.all isNumChar
  | [] => false

/-- `re.match(r'^[\$£€]', line)`: line begins with a currency symbol. -/
def leadCurrency (l : String) : Bool :=
  match l.toList with
  | c :: _ => isCurrency c
  | [] => false

/-- The backward-scan plausibility test of the location heuristic:
`lines[j] and not lines[j].startswith('Listed') and len(lines[j]) > 3`. -/
def plausibleLoc (s : String) : Bool :=
  !(s = "") && !startsWithL s "Listed" && decide (s.length > 3)

/-- Python `range(start, stop, -1)`: `[start, start-1, ..., stop+1]`. -/
def pyRangeDown (start stop : Nat) : List Nat :=
  (List.range' (stop + 1) (start - stop)).reverse

/-- Phase A price test:
`if re.match(r'^[\$£€][\d,\.]+$', line) or line.lower() == 'free': if not price: ...`. -/
def stepPrice (line : String) (st : AState) : AState :=
  if (priceFull line || (toLowerStr line = "free")) && (st.price = "") then
    { st with price := line }
  else st

/-- Phase A listed-date test:
`if line.startswith('Listed ') and ('ago' in line or 'in ' in line): ...`
(unconditional assignment — a later match overwrites an earlier one). -/
def stepListed (line : String) (st : AState) : AState :=
  if startsWithL line "Listed " && (containsSub line "ago" || containsSub line "in ") then
    { st with listed_date := some line }
  else st

/-- Phase A condition test: `if line.startswith('Condition'): if i + 1 <
len(lines): condition = lines[i + 1]` (last marker wins). -/
def stepCondition (lines : List String) (i : Nat) (line : String) (st : AState) : AState :=
  if startsWithL line "Condition" then
    (if i + 1 < lines.length then { st with condition := some (lines.getD (i + 1) "") }
     else st)
  else st

/-- Phase A location test: `if 'Location is approximate' in line and i > 0:`
backward scan `for j in range(i-1, max(0, i-5), -1)` with break on the
first plausible line. -/
def stepLocation (lines : List String) (i : Nat) (line : String) (st : AState) : AState :=
  if containsSub line "Location is approximate" && decide (0 < i) then
    match (pyRangeDown (i - 1) (max 0 (i - 5))).find?
            (fun j => plausibleLoc (lines.getD j "")) with
    | some j => { st with location := lines.getD j "" }
    | none => st
  else st

/-- One iteration of phase A's loop at index `i`; the four marker tests
are independent `if` statements in the source, applied in this order. -/
def stepA (lines : List String) (i : Nat) (line : String) (st : AState) : AState :=
  stepLocation lines i line (stepCondition lines i line (stepListed line (stepPrice line st)))

/-- Phase A's loop, walking the remaining lines at running index `i`. -/
def phaseAGo (lines : List String) : List String → Nat → AState → AState
  | [], _, st => st
  | line :: rest, i, st => phaseAGo lines rest (i + 1) (stepA lines i line st)

/-- The global marker scan (`for i, line in enumerate(lines): ...`). -/
def phaseA (lines : List String) : AState :=
  phaseAGo lines lines 0 ⟨"", "", none, none⟩

/-- Index of the first line equal to `"Details"`
(`for i, line in enumerate(lines): if line == 'Details': ... break`). -/
def firstDetailsIdx : List String → Option Nat
  | [] => none
  | l :: rest =>
    if l = "Details" then some 0
    else (firstDetailsIdx rest).map (· + 1)

/-- Python truthiness of the `details_idx` variable (`None` and `0` are
falsy): the guard of `if details_idx:`. -/
def optTruthy : Option Nat → Bool
  | none => false
  | some n => decide (n ≠ 0)

/-- Whether the windowed scan (phase B) runs at all. -/
def phaseBRuns (lines : List String) : Bool :=
  optTruthy (firstDetailsIdx lines)

/-- The slice of lines handed to the window scan:
`range(details_idx + 1, min(details_idx + 20, len(lines)))`. -/
def phaseBWindow (lines : List String) (d : Nat) : List String :=
  (lines.drop (d + 1)).take 19

/-- State threaded through the window scan's loop. -/
structure WState where
  foundCondition : Bool
  pastCondition : Bool
  title : String
  condition : Option String
  descLines : List String
deriving DecidableEq

/-- The literal lines whose encounter `break`s the window scan. -/
def terminatorLines : List String := ["Message", "Save", "Share", "Location is approximate"]

/-- The window scan's loop body, in source order: `Condition` marker
(`continue`), condition-value capture (`continue`), terminator (`break`),
title assignment, description accumulation. -/
def windowScan : List String → WState → WState
  | [], st => st
  | line :: rest, st =>
    if line = "Condition" then
      windowScan rest { st with foundCondition := true }
    else if st.foundCondition = true ∧ st.pastCondition = false then
      windowScan rest { st with condition := some line, pastCondition := true }
    else if line ∈ terminatorLines then st
    else if st.pastCondition = true ∧ st.title = "" ∧ line.length > 5 ∧ leadCurrency line = false then
      windowScan rest { st with title := line }
    else if st.title ≠ "" ∧ line ≠ st.title ∧ line.length > 2 ∧ some line ≠ st.condition then
      windowScan rest { st with descLines := st.descLines ++ [line] }
    else windowScan rest st

/-- The lines the window scan actually examines before it stops: the same
branch structure as `windowScan`, recording each compared line. -/
def scannedLines : List String → WState → List String
  | [], _ => []
  | line :: rest, st =>
    if line = "Condition" then
      line :: scannedLines rest { st with foundCondition := true }
    else if st.foundCondition = true ∧ st.pastCondition = false then
      line :: scannedLines rest { st with condition := some line, pastCondition := true }
    else if line ∈ terminatorLines then [line]
    else if st.pastCondition = true ∧ st.title = "" ∧ line.length > 5 ∧ leadCurrency line = false then
      line :: scannedLines rest { st with title := line }
    else if st.title ≠ "" ∧ line ≠ st.title ∧ line.length > 2 ∧ some line ≠ st.condition then
      line :: scannedLines rest { st with descLines := st.descLines ++ [line] }
    else line :: scannedLines rest st

/-- The all-lines title fallback predicate:
`len(line) > 10 and not re.match(r'^[\$£€]', line) and 'Facebook' not in line`. -/
def detailFallbackOk (l : String) : Bool :=
  decide (l.length > 10) && !leadCurrency l && !containsSub l "Facebook"

/-- The fallback title (`''` when no line qualifies). -/
def fallbackTitle (lines : List String) : String :=
  (lines.find? detailFallbackOk).getD ""

/-- The detail record returned by `get_listing_details_async`. -/
structure ListingDetails where
  listing_id : String
  title : String
  price : String
  location : String
  description : String
  condition : Option String
  listed_date : Option String
  url : String
deriving DecidableEq

/-- The phase-B block guarded by `if details_idx:` — (title, condition,
description) after the window scan, or the phase-A values untouched when
the guard is falsy.  `cond0` is phase A's condition. -/
def phaseBResult (lines : List String) (cond0 : Option String) :
    String × Option String × String :=
  if phaseBRuns lines = true then
    let fin := windowScan (phaseBWindow lines ((firstDetailsIdx lines).getD 0))
      { foundCondition := false, pastCondition := false, title := ""
        condition := cond0, descLines := [] }
    (fin.title, fin.condition, joinNl fin.descLines)
  else ("", cond0, "")

/-- The spec-side backward index list for the location heuristic:
indices `i-1` down to `max (i-4) 1` (never index 0). -/
def specBackIdxs (i : Nat) : List Nat :=
  (List.range' (max (i - 4) 1) (i - max (i - 4) 1)).reverse

/-- The pure core of `get_listing_details_async`, applied to the
caller-supplied identifier and the normalized body lines. -/
def get_listing_details (listing_id : String) (lines : List String) : ListingDetails :=
  let a := phaseA lines
  let resB := phaseBResult lines a.condition
  let title := if resB.1 = "" then fallbackTitle lines else resB.1
  { listing_id := listing_id
    title := title
    price := a.price
    location := a.location
    description := resB.2.2
    condition := resB.2.1
    listed_date := a.listed_date
    url := "https://www.facebook.com/marketplace/item/" ++ listing_id }

/-! ## Concrete inputs used by counterexamples and witnesses -/

/-- Two anchors sharing one identifier; the first one's inner text is
empty (classified as noise, no record emitted). -/
def exNoise : Anchor := ⟨"/marketplace/item/123", "", none⟩

/-- A second anchor with the same identifier and a classifiable price. -/
def exPriced : Anchor := ⟨"/marketplace/item/123", "$5", none⟩

/-- An anchor whose href does not resolve to any identifier. -/
def exBad : Anchor := ⟨"https://www.facebook.com/marketplace/", "", none⟩

/-- Detail page whose first line is exactly `Details`. -/
def exDetailsFirst : List String :=
  ["Details", "Condition", "Used - Good", "Great Fermenter Item"]

/-- Detail page in which a terminator line (`Message`) immediately
follows the `Condition` marker inside the window, and a later
`Condition` marker lets phase A record a different value. -/
def exTermAfterCond : List String :=
  ["x", "Details", "Condition", "Message", "A genuine title line",
   "More description here", "Condition", "Brand new"]

/-- Detail page with 22 lines: the `Details` marker at index 1 is
followed by 20 further lines; the line at index 21 (the 20th after the
marker) is distinct from every other line and, were it examined, would
be appended to the description. -/
def exTwenty : List String :=
  ["top", "Details", "Condition", "Used - Good", "A proper title here",
   "aa", "ab", "ac", "ad", "ae", "af", "ag", "ah", "ai", "aj", "ak",
   "al", "am", "an", "ao", "ap", "This is the twentieth line"]

/-- Detail page whose only marker-like line starts with `Condition`
without being equal to it. -/
def exCondApply : List String := ["Conditions apply", "Some other value"]

/-- Detail page whose only plausible location line sits at index 0,
directly before the `Location is approximate` marker at index 1. -/
def exBrighton : List String := ["Brighton, UK", "Location is approximate"]

end Scraper

namespace Scraper

/-! ## Identifier resolver lemmas -/

lemma specFirstSeg_nil : specFirstSeg [] = none := rfl

lemma specFirstSeg_cons (c : Char) (rest : List Char) :
    specFirstSeg (c :: rest) =
      if matchAtHead (c :: rest) then some 0
      else (specFirstSeg rest).map (· + 1) := by
  unfold specFirstSeg
  rw [show (c :: rest).length = rest.length + 1 from rfl, List.range_succ_eq_map]
  simp only [List.find?_cons, List.drop_zero, List.find?_map]
  cases hm : matchAtHead (c :: rest) with
  | true => simp [hm]
  | false => simp only [hm]; rfl

/-- The leftmost-match scan agrees with the least matching position. -/
lemma findIdAux_spec (cs : List Char) :
    findIdAux cs = (specFirstSeg cs).map
      (fun p => String.mk (takeDigits (cs.drop (p + segChars.length)))) := by
  induction cs with
  | nil => rfl
  | cons c rest ih =>
    rw [specFirstSeg_cons]
    cases hm : matchAtHead (c :: rest) with
    | true =>
      simp only [findIdAux, hm, if_true, Option.map_some', Nat.zero_add]
    | false =>
      simp only [findIdAux, hm, Bool.false_eq_true, ite_false, ih, Option.map_map]
      cases h : specFirstSeg rest with
      | none => rfl
      | some p =>
        simp only [Option.map_some', Function.comp_apply]
        congr 2

lemma takeDigits_all (cs : List Char) : (takeDigits cs).all Char.isDigit = true := by
  induction cs with
  | nil => rfl
  | cons c rest ih =>
    unfold takeDigits
    cases h : c.isDigit with
    | true => simpa [h] using ih
    | false => simp [h]

lemma takeDigits_take (cs : List Char) :
    cs.take (takeDigits cs).length = takeDigits cs := by
  induction cs with
  | nil => rfl
  | cons c rest ih =>
    unfold takeDigits
    cases h : c.isDigit with
    | true => simpa [h, List.take_succ_cons] using ih
    | false => simp [h]

lemma takeDigits_maximal (cs : List Char) :
    (match (cs.drop (takeDigits cs).length).head? with
     | some c => !c.isDigit
     | none => true) = true := by
  induction cs with
  | nil => rfl
  | cons c rest ih =>
    unfold takeDigits
    cases h : c.isDigit with
    | true => simpa [h, List.drop_succ_cons] using ih
    | false => simp [h]

lemma specFirstSeg_none_iff (cs : List Char) :
    specFirstSeg cs = none ↔ ∀ p, matchAtHead (cs.drop p) = false := by
  unfold specFirstSeg
  rw [List.find?_eq_none]
  constructor
  · intro h p
    by_cases hp : p < cs.length
    · simpa using h p (List.mem_range.mpr hp)
    · have hnil : cs.drop p = [] := List.drop_eq_nil_of_le (by omega)
      rw [hnil]; rfl
  · intro h p _
    simp [h p]

/-! ## Summary extractor lemmas -/

lemma goListings_cons_none {a : Anchor} {rest : List Anchor} {seen : List String}
    (h : findItemId a.href = none) :
    goListings (a :: rest) seen = goListings rest seen := by
  rw [goListings, h]

lemma goListings_cons_seen {a : Anchor} {rest : List Anchor} {seen : List String}
    {id : String} (h : findItemId a.href = some id) (hm : id ∈ seen) :
    goListings (a :: rest) seen = goListings rest seen := by
  rw [goListings, h]
  show (if id ∈ seen then goListings rest seen
        else match mkListing id a with
          | some r => r :: goListings rest (id :: seen)
          | none => goListings rest (id :: seen)) = goListings rest seen
  rw [if_pos hm]

lemma goListings_cons_emit {a : Anchor} {rest : List Anchor} {seen : List String}
    {id : String} {r : MarketplaceListing} (h : findItemId a.href = some id)
    (hm : id ∉ seen) (hmk : mkListing id a = some r) :
    goListings (a :: rest) seen = r :: goListings rest (id :: seen) := by
  rw [goListings, h]
  show (if id ∈ seen then goListings rest seen
        else match mkListing id a with
          | some r => r :: goListings rest (id :: seen)
          | none => goListings rest (id :: seen)) = r :: goListings rest (id :: seen)
  rw [if_neg hm, hmk]

lemma goListings_cons_noise {a : Anchor} {rest : List Anchor} {seen : List String}
    {id : String} (h : findItemId a.href = some id)
    (hm : id ∉ seen) (hmk : mkListing id a = none) :
    goListings (a :: rest) seen = goListings rest (id :: seen) := by
  rw [goListings, h]
  show (if id ∈ seen then goListings rest seen
        else match mkListing id a with
          | some r => r :: goListings rest (id :: seen)
          | none => goListings rest (id :: seen)) = goListings rest (id :: seen)
  rw [if_neg hm, hmk]

lemma firstSeenIds_cons_none {a : Anchor} {rest : List Anchor} {seen : List String}
    (h : findItemId a.href = none) :
    firstSeenIds (a :: rest) seen = firstSeenIds rest seen := by
  rw [firstSeenIds, h]

lemma firstSeenIds_cons_seen {a : Anchor} {rest : List Anchor} {seen : List String}
    {id : String} (h : findItemId a.href = some id) (hm : id ∈ seen) :
    firstSeenIds (a :: rest) seen = firstSeenIds rest seen := by
  rw [firstSeenIds, h]
  show (if id ∈ seen then firstSeenIds rest seen
        else id :: firstSeenIds rest (id :: seen)) = firstSeenIds rest seen
  rw [if_pos hm]

lemma firstSeenIds_cons_new {a : Anchor} {rest : List Anchor} {seen : List String}
    {id : String} (h : findItemId a.href = some id) (hm : id ∉ seen) :
    firstSeenIds (a :: rest) seen = id :: firstSeenIds rest (id :: seen) := by
  rw [firstSeenIds, h]
  show (if id ∈ seen then firstSeenIds rest seen
        else id :: firstSeenIds rest (id :: seen)) = id :: firstSeenIds rest (id :: seen)
  rw [if_neg hm]

lemma mkListing_fields {id : String} {a : Anchor} {r : MarketplaceListing}
    (h : mkListing id a = some r) :
    r.listing_id = id ∧ r.title ≠ "" ∧ r.price ≠ "" := by
  dsimp only [mkListing] at h
  split at h
  · cases h
    refine ⟨rfl, ?_, ?_⟩
    · dsimp only
      split
      · intro hcon
        have hlen := congrArg String.length hcon
        rw [String.length_append] at hlen
        rw [show ("Listing " : String).length = 8 from rfl] at hlen
        rw [show ("" : String).length = 0 from rfl] at hlen
        omega
      · assumption
    · dsimp only
      split
      · decide
      · assumption
  · cases h

lemma goListings_id_not_seen {anchors : List Anchor} {seen : List String}
    {r : MarketplaceListing} (hr : r ∈ goListings anchors seen) :
    r.listing_id ∉ seen := by
  induction anchors generalizing seen with
  | nil => cases hr
  | cons a rest ih =>
    rcases hres : findItemId a.href with _ | id
    · rw [goListings_cons_none hres] at hr
      exact ih hr
    · by_cases hmem : id ∈ seen
      · rw [goListings_cons_seen hres hmem] at hr
        exact ih hr
      · rcases hmk : mkListing id a with _ | r0
        · rw [goListings_cons_noise hres hmem hmk] at hr
          intro hbad
          exact ih hr (List.mem_cons_of_mem _ hbad)
        · rw [goListings_cons_emit hres hmem hmk] at hr
          rcases List.mem_cons.mp hr with hhd | htl
          · subst hhd
            rw [(mkListing_fields hmk).1]
            exact hmem
          · intro hbad
            exact ih htl (List.mem_cons_of_mem _ hbad)

lemma goListings_ids_nodup (anchors : List Anchor) (seen : List String) :
    ((goListings anchors seen).map (fun r => r.listing_id)).Nodup := by
  induction anchors generalizing seen with
  | nil => exact List.nodup_nil
  | cons a rest ih =>
    rcases hres : findItemId a.href with _ | id
    · rw [goListings_cons_none hres]
      exact ih seen
    · by_cases hmem : id ∈ seen
      · rw [goListings_cons_seen hres hmem]
        exact ih seen
      · rcases hmk : mkListing id a with _ | r0
        · rw [goListings_cons_noise hres hmem hmk]
          exact ih (id :: seen)
        · rw [goListings_cons_emit hres hmem hmk, List.map_cons, List.nodup_cons]
          refine ⟨?_, ih (id :: seen)⟩
          intro hbad
          rcases List.mem_map.mp hbad with ⟨r2, hr2, hid⟩
          have hnot := goListings_id_not_seen hr2
          rw [hid, (mkListing_fields hmk).1] at hnot
          exact hnot (List.mem_cons_self _ _)

lemma goListings_ids_sublist (anchors : List Anchor) (seen : List String) :
    ((goListings anchors seen).map (fun r => r.listing_id)).Sublist
      (firstSeenIds anchors seen) := by
  induction anchors generalizing seen with
  | nil => exact List.Sublist.refl _
  | cons a rest ih =>
    rcases hres : findItemId a.href with _ | id
    · rw [goListings_cons_none hres, firstSeenIds_cons_none hres]
      exact ih seen
    · by_cases hmem : id ∈ seen
      · rw [goListings_cons_seen hres hmem, firstSeenIds_cons_seen hres hmem]
        exact ih seen
      · rcases hmk : mkListing id a with _ | r0
        · rw [goListings_cons_noise hres hmem hmk, firstSeenIds_cons_new hres hmem]
          exact List.Sublist.cons _ (ih (id :: seen))
        · rw [goListings_cons_emit hres hmem hmk, firstSeenIds_cons_new hres hmem,
            List.map_cons, (mkListing_fields hmk).1]
          exact List.Sublist.cons₂ _ (ih (id :: seen))

lemma mkListing_none_iff (id : String) (a : Anchor) :
    mkListing id a = none ↔
      (parse_listing_text (trimStr a.text)).1 = "" ∧
      (parse_listing_text (trimStr a.text)).2.1 = "" := by
  dsimp only [mkListing]
  split
  · rename_i h
    constructor
    · intro hc
      cases hc
    · rintro ⟨h1, h2⟩
      rcases h with h | h
      · exact absurd h1 h
      · exact absurd h2 h
  · rename_i h
    push_neg at h
    constructor
    · intro _
      exact h
    · intro _
      rfl

lemma mkListing_some_nonempty {id : String} {a : Anchor} {r : MarketplaceListing}
    (h : mkListing id a = some r) :
    (parse_listing_text (trimStr a.text)).1 ≠ "" ∨
      (parse_listing_text (trimStr a.text)).2.1 ≠ "" := by
  dsimp only [mkListing] at h
  split at h
  · rename_i hc
    exact hc
  · cases h

lemma mkListing_some_shape {id : String} {a : Anchor} {r : MarketplaceListing}
    (h : mkListing id a = some r) :
    r.title = (if (parse_listing_text (trimStr a.text)).1 = "" then "Listing " ++ id
               else (parse_listing_text (trimStr a.text)).1) ∧
    r.price = (if (parse_listing_text (trimStr a.text)).2.1 = "" then "Price not listed"
               else (parse_listing_text (trimStr a.text)).2.1) := by
  dsimp only [mkListing] at h
  split at h
  · cases h
    exact ⟨rfl, rfl⟩
  · cases h

lemma goListings_fields_nonempty {anchors : List Anchor} {seen : List String}
    {r : MarketplaceListing} (hr : r ∈ goListings anchors seen) :
    r.title ≠ "" ∧ r.price ≠ "" := by
  induction anchors generalizing seen with
  | nil => cases hr
  | cons a rest ih =>
    rcases hres : findItemId a.href with _ | id
    · rw [goListings_cons_none hres] at hr
      exact ih hr
    · by_cases hmem : id ∈ seen
      · rw [goListings_cons_seen hres hmem] at hr
        exact ih hr
      · rcases hmk : mkListing id a with _ | r0
        · rw [goListings_cons_noise hres hmem hmk] at hr
          exact ih hr
        · rw [goListings_cons_emit hres hmem hmk] at hr
          rcases List.mem_cons.mp hr with hhd | htl
          · subst hhd
            exact ⟨(mkListing_fields hmk).2.1, (mkListing_fields hmk).2.2⟩
          · exact ih htl

lemma goListings_find_none {anchors : List Anchor} {seen : List String} {id : String}
    (hm : id ∈ seen) :
    (goListings anchors seen).find? (fun r => r.listing_id == id) = none := by
  rw [List.find?_eq_none]
  intro r hr
  have hnot := goListings_id_not_seen hr
  simp only [beq_iff_eq]
  intro hbad
  rw [hbad] at hnot
  exact hnot hm

lemma goListings_find_first {post : List Anchor} {a : Anchor} {id : String}
    (hres : findItemId a.href = some id) :
    ∀ (pre : List Anchor) (seen : List String),
      (∀ b ∈ pre, findItemId b.href ≠ some id) → id ∉ seen →
      (goListings (pre ++ a :: post) seen).find? (fun r => r.listing_id == id)
        = mkListing id a := by
  intro pre
  induction pre with
  | nil =>
    intro seen _ hid
    rcases hmk : mkListing id a with _ | r
    · rw [List.nil_append, goListings_cons_noise hres hid hmk]
      exact goListings_find_none (List.mem_cons_self _ _)
    · rw [List.nil_append, goListings_cons_emit hres hid hmk]
      simp [List.find?_cons, (mkListing_fields hmk).1]
  | cons b pre' ih =>
    intro seen hpre hid
    have hb : findItemId b.href ≠ some id := hpre b (List.mem_cons_self _ _)
    have hpre' : ∀ x ∈ pre', findItemId x.href ≠ some id :=
      fun x hx => hpre x (List.mem_cons_of_mem _ hx)
    rcases hresb : findItemId b.href with _ | id2
    · rw [List.cons_append, goListings_cons_none hresb]
      exact ih seen hpre' hid
    · have hne : id2 ≠ id := fun he => hb (by rw [hresb, he])
      have hid2 : ∀ s : List String, id ∉ s → id ∉ id2 :: s := by
        intro s hs hc
        rcases List.mem_cons.mp hc with h1 | h2
        · exact hne h1.symm
        · exact hs h2
      by_cases hm2 : id2 ∈ seen
      · rw [List.cons_append, goListings_cons_seen hresb hm2]
        exact ih seen hpre' hid
      · rcases hmk2 : mkListing id2 b with _ | r2
        · rw [List.cons_append, goListings_cons_noise hresb hm2 hmk2]
          exact ih (id2 :: seen) hpre' (hid2 seen hid)
        · rw [List.cons_append, goListings_cons_emit hresb hm2 hmk2]
          have hp : (r2.listing_id == id) = false := by
            rw [(mkListing_fields hmk2).1]
            exact beq_eq_false_iff_ne.mpr hne
          rw [List.find?_cons, hp]
          exact ih (id2 :: seen) hpre' (hid2 seen hid)

/-! ## Claim theorems for the summary pipeline -/

/-- Claim C1 (amended): an anchor whose identifier resolves is skipped
at the dedup step precisely when the identifier has already been
*resolved* from an earlier anchor in the pass — whether or not that
earlier anchor emitted a record.  Consequently the record a pass emits
for an identifier is exactly the one classified from the *first anchor
whose href resolves to it*: for any decomposition `pre ++ a :: post`
where no anchor of `pre` resolves to `id` and `a` resolves to `id`, the
output's record for `id` is `mkListing id a` (present precisely when
`a`'s scan yields a non-empty price or title, independent of `post`). -/
theorem c1_dedup_first_resolved (pre post : List Anchor) (a : Anchor) (id : String)
    (hres : findItemId a.href = some id)
    (hpre : ∀ b ∈ pre, findItemId b.href ≠ some id) :
    (extract_listings_from_page (pre ++ a :: post)).find? (fun r => r.listing_id == id)
      = mkListing id a := by
  have hid : id ∉ ([] : List String) := by
    intro h
    cases h
  exact goListings_find_first hres pre [] hpre hid

/-- Witness for `c1_dedup_first_resolved` at a concrete input: the first
anchor does not resolve to `123`, the second does, and the record found
for `123` is the one classified from the second anchor. -/
theorem c1_dedup_first_resolved_witness :
    (extract_listings_from_page [exBad, exPriced, exNoise]).find?
        (fun r => r.listing_id == "123") = mkListing "123" exPriced := by
  have h := c1_dedup_first_resolved [exBad] [exNoise] exPriced "123"
    (by decide) (by decide)
  exact h

/-- Claim C7: within one pass the Summary Extractor never emits two
records with the same identifier, and the emitted records' identifiers
appear in exactly the first-seen order of identifiers in the input
(a sublist of the first-seen identifier sequence). -/
theorem c7_unique_and_first_seen_order (anchors : List Anchor) :
    ((extract_listings_from_page anchors).map (fun r => r.listing_id)).Nodup ∧
      ((extract_listings_from_page anchors).map (fun r => r.listing_id)).Sublist
        (firstSeenIds anchors []) :=
  ⟨goListings_ids_nodup anchors [], goListings_ids_sublist anchors []⟩

/-- Claim C8: a processed anchor emits a record iff the greedy scan left
title or price non-empty; an emitted record's title and price carry the
`Listing {id}` / `Price not listed` fallbacks, so neither field of any
emitted record is ever empty. -/
theorem c8_emission_and_fallbacks (id : String) (a : Anchor) (anchors : List Anchor) :
    (match mkListing id a with
     | none =>
         (parse_listing_text (trimStr a.text)).1 = "" ∧
         (parse_listing_text (trimStr a.text)).2.1 = ""
     | some r =>
         ((parse_listing_text (trimStr a.text)).1 ≠ "" ∨
            (parse_listing_text (trimStr a.text)).2.1 ≠ "") ∧
         r.title = (if (parse_listing_text (trimStr a.text)).1 = "" then "Listing " ++ id
                    else (parse_listing_text (trimStr a.text)).1) ∧
         r.price = (if (parse_listing_text (trimStr a.text)).2.1 = "" then "Price not listed"
                    else (parse_listing_text (trimStr a.text)).2.1) ∧
         r.title ≠ "" ∧ r.price ≠ "") ∧
      (extract_listings_from_page anchors).all
        (fun r => !(r.title == "") && !(r.price == "")) = true := by
  constructor
  · cases hmk : mkListing id a with
    | none =>
      exact (mkListing_none_iff id a).mp hmk
    | some r =>
      exact ⟨mkListing_some_nonempty hmk, (mkListing_some_shape hmk).1,
        (mkListing_some_shape hmk).2, (mkListing_fields hmk).2.1,
        (mkListing_fields hmk).2.2⟩
  · rw [List.all_eq_true]
    intro r hr
    have h := goListings_fields_nonempty hr
    simp only [Bool.and_eq_true, Bool.not_eq_true', beq_eq_false_iff_ne]
    exact h

/-- Claim C9: the identifier resolver returns exactly the maximal digit
run following the first occurrence of `/marketplace/item/` that is
followed by at least one digit, and returns no-match (`none`) for every
string with no such occurrence (`specFirstSeg` is `none` exactly when
the pattern matches at no position). -/
theorem c9_identifier_resolver (s : String) :
    findItemId s = (specFirstSeg s.toList).map
        (fun p => String.mk (takeDigits (s.toList.drop (p + segChars.length)))) ∧
      (specFirstSeg s.toList = none ↔ ∀ p, matchAtHead (s.toList.drop p) = false) ∧
      (∀ cs : List Char,
        (takeDigits cs).all Char.isDigit = true ∧
        cs.take (takeDigits cs).length = takeDigits cs ∧
        (match (cs.drop (takeDigits cs).length).head? with
         | some c => !c.isDigit
         | none => true) = true) :=
  ⟨findIdAux_spec s.toList, specFirstSeg_none_iff s.toList,
    fun cs => ⟨takeDigits_all cs, takeDigits_take cs, takeDigits_maximal cs⟩⟩

/-! ## Detail extractor lemmas -/

lemma firstDetailsIdx_cons_ne {l : String} {rest : List String} (h : l ≠ "Details") :
    firstDetailsIdx (l :: rest) = (firstDetailsIdx rest).map (· + 1) := by
  rw [firstDetailsIdx, if_neg h]

lemma firstDetailsIdx_isSome_iff (lines : List String) :
    (firstDetailsIdx lines).isSome = true ↔ "Details" ∈ lines := by
  induction lines with
  | nil => simp [firstDetailsIdx]
  | cons l rest ih =>
    by_cases h : l = "Details"
    · subst h
      rw [firstDetailsIdx, if_pos rfl]
      simp
    · have h' : ("Details" : String) ≠ l := fun hh => h hh.symm
      rw [firstDetailsIdx_cons_ne h]
      rw [show ((firstDetailsIdx rest).map (· + 1)).isSome = (firstDetailsIdx rest).isSome
        from by cases firstDetailsIdx rest <;> rfl]
      rw [ih]
      simp [List.mem_cons, h']

/-- Claim C2 (amended): phase B runs precisely when some line equals
`Details` *and* the first line of the sequence is not itself `Details`;
a leading `Details` (index 0) makes the `if details_idx:` guard falsy
and phase B is skipped. -/
theorem c2_phaseB_iff (lines : List String) :
    phaseBRuns lines = true ↔
      ("Details" ∈ lines ∧ lines.head? ≠ some "Details") := by
  cases lines with
  | nil => simp [phaseBRuns, firstDetailsIdx, optTruthy]
  | cons l rest =>
    by_cases h : l = "Details"
    · subst h
      have hrw : phaseBRuns ("Details" :: rest) = false := by
        unfold phaseBRuns
        rw [firstDetailsIdx, if_pos rfl]
        rfl
      rw [hrw]
      simp
    · have h' : ("Details" : String) ≠ l := fun hh => h hh.symm
      have hrw : phaseBRuns (l :: rest) = (firstDetailsIdx rest).isSome := by
        unfold phaseBRuns
        rw [firstDetailsIdx_cons_ne h]
        cases firstDetailsIdx rest <;> rfl
      rw [hrw, firstDetailsIdx_isSome_iff]
      simp [List.mem_cons, h, h']

lemma scannedLines_no_term : ∀ (w : List String),
    (∀ l ∈ w, l ∉ terminatorLines) →
    ∀ st : WState, scannedLines w st = w := by
  intro w
  induction w with
  | nil =>
    intro _ st
    rfl
  | cons line rest ih =>
    intro hterm st
    have hl : line ∉ terminatorLines := hterm line (List.mem_cons_self _ _)
    have hrest : ∀ l ∈ rest, l ∉ terminatorLines :=
      fun l hx => hterm l (List.mem_cons_of_mem _ hx)
    rw [scannedLines]
    by_cases h1 : line = "Condition"
    · rw [if_pos h1, ih hrest]
    · rw [if_neg h1]
      by_cases h2 : st.foundCondition = true ∧ st.pastCondition = false
      · rw [if_pos h2, ih hrest]
      · rw [if_neg h2, if_neg hl]
        by_cases h4 : st.pastCondition = true ∧ st.title = "" ∧
            line.length > 5 ∧ leadCurrency line = false
        · rw [if_pos h4, ih hrest]
        · rw [if_neg h4]
          by_cases h5 : st.title ≠ "" ∧ line ≠ st.title ∧
              line.length > 2 ∧ some line ≠ st.condition
          · rw [if_pos h5, ih hrest]
          · rw [if_neg h5, ih hrest]

lemma windowScan_no_marker : ∀ (w : List String),
    (∀ l ∈ w, l ≠ "Condition") →
    ∀ st : WState, st.foundCondition = false → st.pastCondition = false →
      st.title = "" →
    (windowScan w st).title = "" ∧ (windowScan w st).descLines = st.descLines := by
  intro w
  induction w with
  | nil =>
    intro _ st _ _ htitle
    exact ⟨htitle, rfl⟩
  | cons line rest ih =>
    intro hm st hfound hpast htitle
    have hl : line ≠ "Condition" := hm line (List.mem_cons_self _ _)
    have hrest : ∀ l ∈ rest, l ≠ "Condition" :=
      fun l hx => hm l (List.mem_cons_of_mem _ hx)
    rw [windowScan, if_neg hl]
    have h2 : ¬(st.foundCondition = true ∧ st.pastCondition = false) := by
      rw [hfound]
      rintro ⟨hc, -⟩
      cases hc
    rw [if_neg h2]
    by_cases h3 : line ∈ terminatorLines
    · rw [if_pos h3]
      exact ⟨htitle, rfl⟩
    · rw [if_neg h3]
      have h4 : ¬(st.pastCondition = true ∧ st.title = "" ∧
          line.length > 5 ∧ leadCurrency line = false) := by
        rw [hpast]
        rintro ⟨hc, -⟩
        cases hc
      rw [if_neg h4]
      have h5 : ¬(st.title ≠ "" ∧ line ≠ st.title ∧
          line.length > 2 ∧ some line ≠ st.condition) := by
        rintro ⟨hc, -⟩
        exact hc htitle
      rw [if_neg h5]
      exact ih hrest st hfound hpast htitle

/-- Claim C3 (amended): a terminator line stops the window scan in every
state *except* immediately after a `Condition` marker
(`foundCondition ∧ ¬pastCondition`), where the source captures it as the
condition value and continues — the capture branch precedes the
terminator test. -/
theorem c3_terminator_behavior (line : String) (hl : line ∈ terminatorLines)
    (rest : List String) (st : WState) :
    (¬(st.foundCondition = true ∧ st.pastCondition = false) →
        windowScan (line :: rest) st = st) ∧
      (st.foundCondition = true → st.pastCondition = false →
        windowScan (line :: rest) st =
          windowScan rest { st with condition := some line, pastCondition := true }) := by
  have hnc : line ≠ "Condition" := by
    intro he
    subst he
    revert hl
    decide
  constructor
  · intro hna
    rw [windowScan, if_neg hnc, if_neg hna, if_pos hl]
  · intro hf hp
    rw [windowScan, if_neg hnc, if_pos ⟨hf, hp⟩]

/-- Witness for `c3_terminator_behavior`: `Message` stops the scan from
the initial state, and is captured as the condition value (scan moving
on) when it directly follows a `Condition` marker. -/
theorem c3_terminator_behavior_witness :
    windowScan ["Message", "Some further line"] ⟨false, false, "", none, []⟩ =
        ⟨false, false, "", none, []⟩ ∧
      windowScan ["Message"] ⟨true, false, "", none, []⟩ =
        ⟨true, true, "", some "Message", []⟩ := by
  constructor
  · exact (c3_terminator_behavior "Message" (by decide) ["Some further line"]
      ⟨false, false, "", none, []⟩).1 (by decide)
  · exact (c3_terminator_behavior "Message" (by decide) []
      ⟨true, false, "", none, []⟩).2 rfl rfl

/-- Claim C4 (amended): the window comprises the 19 (not 20) lines
following the `Details` marker; whenever the 19th line after the marker
exists and the window contains no terminator, the scan examines every
window line, the 19th included. -/
theorem c4_window_nineteen (lines : List String) (d : Nat) (st : WState)
    (hlen : d + 19 < lines.length)
    (hterm : ∀ l ∈ phaseBWindow lines d, l ∉ terminatorLines) :
    (phaseBWindow lines d).length = 19 ∧
      scannedLines (phaseBWindow lines d) st = phaseBWindow lines d ∧
      lines.getD (d + 19) "" ∈ scannedLines (phaseBWindow lines d) st := by
  have hwlen : (phaseBWindow lines d).length = 19 := by
    unfold phaseBWindow
    rw [List.length_take, List.length_drop]
    omega
  have hscan := scannedLines_no_term _ hterm st
  refine ⟨hwlen, hscan, ?_⟩
  rw [hscan]
  have h18 : 18 < (phaseBWindow lines d).length := by
    rw [hwlen]
    omega
  have hgd : (phaseBWindow lines d)[18] = lines.getD (d + 19) "" := by
    rw [List.getD_eq_getElem _ _ hlen]
    unfold phaseBWindow
    rw [List.getElem_take, List.getElem_drop]
  rw [← hgd]
  exact List.getElem_mem h18

/-- Witness for `c4_window_nineteen` on a concrete 22-line page. -/
theorem c4_window_nineteen_witness :
    (phaseBWindow exTwenty 1).length = 19 ∧
      scannedLines (phaseBWindow exTwenty 1) ⟨false, false, "", none, []⟩ =
        phaseBWindow exTwenty 1 ∧
      exTwenty.getD 20 "" ∈
        scannedLines (phaseBWindow exTwenty 1) ⟨false, false, "", none, []⟩ :=
  c4_window_nineteen exTwenty 1 ⟨false, false, "", none, []⟩ (by decide) (by decide)

/-! ## Phase A step lemmas -/

lemma stepPrice_condition (line : String) (st : AState) :
    (stepPrice line st).condition = st.condition := by
  unfold stepPrice
  split <;> rfl

lemma stepPrice_location (line : String) (st : AState) :
    (stepPrice line st).location = st.location := by
  unfold stepPrice
  split <;> rfl

lemma stepListed_condition (line : String) (st : AState) :
    (stepListed line st).condition = st.condition := by
  unfold stepListed
  split <;> rfl

lemma stepListed_location (line : String) (st : AState) :
    (stepListed line st).location = st.location := by
  unfold stepListed
  split <;> rfl

lemma stepCondition_location (lines : List String) (i : Nat) (line : String) (st : AState) :
    (stepCondition lines i line st).location = st.location := by
  unfold stepCondition
  split <;> (try split) <;> rfl

lemma stepLocation_condition (lines : List String) (i : Nat) (line : String) (st : AState) :
    (stepLocation lines i line st).condition = st.condition := by
  unfold stepLocation
  split <;> (try split) <;> rfl

lemma stepCondition_no {lines : List String} {i : Nat} {line : String} {st : AState}
    (h : startsWithL line "Condition" = false) :
    (stepCondition lines i line st).condition = st.condition := by
  unfold stepCondition
  rw [if_neg]
  simp [h]

lemma stepCondition_yes {lines : List String} {i : Nat} {line : String} {st : AState}
    (h : startsWithL line "Condition" = true) (hlt : i + 1 < lines.length) :
    (stepCondition lines i line st).condition = some (lines.getD (i + 1) "") := by
  unfold stepCondition
  rw [if_pos h, if_pos hlt]

lemma stepLocation_no {lines : List String} {i : Nat} {line : String} {st : AState}
    (h : containsSub line "Location is approximate" = false) :
    (stepLocation lines i line st).location = st.location := by
  unfold stepLocation
  rw [if_neg]
  simp [h]

lemma stepLocation_yes {lines : List String} {i : Nat} {line : String} {st : AState}
    (h : containsSub line "Location is approximate" = true) (hi : 0 < i) :
    (stepLocation lines i line st).location =
      (match (pyRangeDown (i - 1) (max 0 (i - 5))).find?
          (fun j => plausibleLoc (lines.getD j "")) with
       | some j => lines.getD j ""
       | none => st.location) := by
  unfold stepLocation
  rw [if_pos (by simp [h, hi])]
  split <;> rfl

lemma stepA_condition_no {lines : List String} {i : Nat} {line : String} {st : AState}
    (h : startsWithL line "Condition" = false) :
    (stepA lines i line st).condition = st.condition := by
  unfold stepA
  rw [stepLocation_condition, stepCondition_no h, stepListed_condition, stepPrice_condition]

lemma stepA_condition_yes {lines : List String} {i : Nat} {line : String} {st : AState}
    (h : startsWithL line "Condition" = true) (hlt : i + 1 < lines.length) :
    (stepA lines i line st).condition = some (lines.getD (i + 1) "") := by
  unfold stepA
  rw [stepLocation_condition, stepCondition_yes h hlt]

lemma stepA_location_no {lines : List String} {i : Nat} {line : String} {st : AState}
    (h : containsSub line "Location is approximate" = false) :
    (stepA lines i line st).location = st.location := by
  unfold stepA
  rw [stepLocation_no h, stepCondition_location, stepListed_location, stepPrice_location]

lemma stepA_location_yes {lines : List String} {i : Nat} {line : String} {st : AState}
    (h : containsSub line "Location is approximate" = true) (hi : 0 < i) :
    (stepA lines i line st).location =
      (match (pyRangeDown (i - 1) (max 0 (i - 5))).find?
          (fun j => plausibleLoc (lines.getD j "")) with
       | some j => lines.getD j ""
       | none => (stepCondition lines i line
           (stepListed line (stepPrice line st))).location) := by
  unfold stepA
  rw [stepLocation_yes h hi]

lemma phaseAGo_append (lines ys : List String) :
    ∀ (xs : List String) (i : Nat) (st : AState),
    phaseAGo lines (xs ++ ys) i st =
      phaseAGo lines ys (i + xs.length) (phaseAGo lines xs i st) := by
  intro xs
  induction xs with
  | nil =>
    intro i st
    rfl
  | cons x xs ih =>
    intro i st
    rw [List.cons_append]
    rw [show i + (x :: xs).length = (i + 1) + xs.length from by
      simp only [List.length_cons]
      omega]
    exact ih (i + 1) (stepA lines i x st)

lemma phaseAGo_cond_no_marker (lines : List String) :
    ∀ (rem : List String) (i : Nat) (st : AState),
    (∀ l ∈ rem, startsWithL l "Condition" = false) →
    (phaseAGo lines rem i st).condition = st.condition := by
  intro rem
  induction rem with
  | nil =>
    intro i st _
    rfl
  | cons l rest ih =>
    intro i st hm
    rw [phaseAGo]
    rw [ih _ _ (fun x hx => hm x (List.mem_cons_of_mem _ hx))]
    exact stepA_condition_no (hm l (List.mem_cons_self _ _))

lemma phaseAGo_loc_no_marker (lines : List String) :
    ∀ (rem : List String) (i : Nat) (st : AState),
    (∀ l ∈ rem, containsSub l "Location is approximate" = false) →
    (phaseAGo lines rem i st).location = st.location := by
  intro rem
  induction rem with
  | nil =>
    intro i st _
    rfl
  | cons l rest ih =>
    intro i st hm
    rw [phaseAGo]
    rw [ih _ _ (fun x hx => hm x (List.mem_cons_of_mem _ hx))]
    exact stepA_location_no (hm l (List.mem_cons_self _ _))

lemma getD_append_second (d : String) :
    ∀ (pre : List String) (a b : String) (post : List String),
    (pre ++ a :: b :: post).getD (pre.length + 1) d = b := by
  intro pre
  induction pre with
  | nil =>
    intro a b post
    rfl
  | cons x pre ih =>
    intro a b post
    rw [List.cons_append]
    rw [show (x :: pre).length + 1 = (pre.length + 1) + 1 from by simp]
    rw [List.getD_cons_succ]
    exact ih a b post

/-- Claim C5 (amended): phase A's condition capture is triggered by any
line that *starts with* `Condition` (equality is not required, so
`Conditions apply` also triggers it); each trigger records the following
line, and the last trigger in the scan wins. -/
theorem c5_condition_startswith_last_wins (pre : List String) (l v : String)
    (post : List String)
    (hmark : startsWithL l "Condition" = true)
    (hafter : ∀ x ∈ v :: post, startsWithL x "Condition" = false) :
    (phaseA (pre ++ l :: v :: post)).condition = some v := by
  unfold phaseA
  rw [phaseAGo_append, Nat.zero_add]
  rw [phaseAGo]
  rw [phaseAGo_cond_no_marker _ _ _ _ hafter]
  have hlt : pre.length + 1 < (pre ++ l :: v :: post).length := by
    rw [List.length_append]
    simp only [List.length_cons]
    omega
  rw [stepA_condition_yes hmark hlt]
  rw [getD_append_second]

/-- Witness for `c5_condition_startswith_last_wins`: the marker line
`Conditions apply` merely starts with `Condition`, yet the next line is
captured. -/
theorem c5_condition_startswith_last_wins_witness :
    (phaseA ["Conditions apply", "Some other value"]).condition =
      some "Some other value" :=
  c5_condition_startswith_last_wins [] "Conditions apply" "Some other value" []
    (by decide) (by decide)

/-- Claim C6 (amended): for a `Location is approximate` marker at index
`i = pre.length > 0` (with no other marker in the sequence), the location
is the closest plausible line among indices `i-1` down to `max (i-4) 1`
— index 0 is never examined, because `range(i-1, max(0, i-5), -1)` stops
at `max(0, i-5) + 1 ≥ 1`. -/
theorem c6_location_backscan (pre : List String) (mark : String) (post : List String)
    (hmark : containsSub mark "Location is approximate" = true)
    (hpre : ∀ l ∈ pre, containsSub l "Location is approximate" = false)
    (hpost : ∀ l ∈ post, containsSub l "Location is approximate" = false)
    (hpre0 : pre ≠ []) :
    0 ∉ specBackIdxs pre.length ∧
      (phaseA (pre ++ mark :: post)).location =
        (match (specBackIdxs pre.length).find?
            (fun j => plausibleLoc ((pre ++ mark :: post).getD j "")) with
         | some j => (pre ++ mark :: post).getD j ""
         | none => "") := by
  constructor
  · intro hc
    rw [specBackIdxs, List.mem_reverse, List.mem_range'_1] at hc
    omega
  · unfold phaseA
    rw [phaseAGo_append, Nat.zero_add]
    rw [phaseAGo]
    rw [phaseAGo_loc_no_marker _ _ _ _ hpost]
    have hi : 0 < pre.length := List.length_pos.mpr hpre0
    rw [stepA_location_yes hmark hi]
    have hback : pyRangeDown (pre.length - 1) (max 0 (pre.length - 5))
        = specBackIdxs pre.length := by
      unfold pyRangeDown specBackIdxs
      rw [show max 0 (pre.length - 5) + 1 = max (pre.length - 4) 1 from by omega,
        show (pre.length - 1) - max 0 (pre.length - 5)
          = pre.length - max (pre.length - 4) 1 from by omega]
    rw [hback]
    have h0 : (stepCondition (pre ++ mark :: post) pre.length mark
        (stepListed mark (stepPrice mark
          (phaseAGo (pre ++ mark :: post) pre 0 ⟨"", "", none, none⟩)))).location = "" := by
      rw [stepCondition_location, stepListed_location, stepPrice_location]
      exact phaseAGo_loc_no_marker _ _ _ _ hpre
    cases hfind : (specBackIdxs pre.length).find?
        (fun j => plausibleLoc ((pre ++ mark :: post).getD j "")) with
    | none => exact h0
    | some j => rfl

/-- Witness for `c6_location_backscan`: the spec.md example — the
plausible line directly preceding the marker (index `i-1 = 1`) wins. -/
theorem c6_location_backscan_witness :
    0 ∉ specBackIdxs 2 ∧
      (phaseA ["Header line", "Brighton, UK", "Location is approximate"]).location =
        "Brighton, UK" := by
  have h := c6_location_backscan ["Header line", "Brighton, UK"]
    "Location is approximate" [] (by decide) (by decide) (by decide) (by decide)
  have h2 := h.2
  simp only [List.cons_append, List.nil_append] at h2
  refine ⟨h.1, ?_⟩
  rw [h2]
  decide

lemma phaseBResult_no_marker (lines : List String) (cond0 : Option String)
    (h : ∀ l ∈ phaseBWindow lines ((firstDetailsIdx lines).getD 0), l ≠ "Condition") :
    (phaseBResult lines cond0).1 = "" ∧ (phaseBResult lines cond0).2.2 = "" := by
  unfold phaseBResult
  split_ifs with hb
  · have hw := windowScan_no_marker _ h
      ⟨false, false, "", cond0, []⟩ rfl rfl rfl
    refine ⟨hw.1, ?_⟩
    show joinNl (windowScan (phaseBWindow lines ((firstDetailsIdx lines).getD 0))
      ⟨false, false, "", cond0, []⟩).descLines = ""
    rw [hw.2]
    rfl
  · exact ⟨rfl, rfl⟩

/-- Claim C10: if the phase-B window contains no line equal to
`Condition`, the window scan assigns neither title nor description: the
description of the extracted record is empty and its title comes solely
from the all-lines fallback.  (This also covers pages where phase B is
skipped outright.) -/
theorem c10_no_condition_no_title_desc (id : String) (lines : List String)
    (h : ∀ l ∈ phaseBWindow lines ((firstDetailsIdx lines).getD 0), l ≠ "Condition") :
    (get_listing_details id lines).description = "" ∧
      (get_listing_details id lines).title = fallbackTitle lines := by
  have hres := phaseBResult_no_marker lines (phaseA lines).condition h
  constructor
  · exact hres.2
  · show (if (phaseBResult lines (phaseA lines).condition).1 = ""
          then fallbackTitle lines
          else (phaseBResult lines (phaseA lines).condition).1) = fallbackTitle lines
    rw [hres.1, if_pos rfl]

/-- Witness for `c10_no_condition_no_title_desc`: a page whose window
has no `Condition` marker; the description stays empty, and the title is
the fallback line. -/
theorem c10_no_condition_no_title_desc_witness :
    (get_listing_details "1" ["x", "Details", "A reasonably long line", "Save"]).description
        = "" ∧
      (get_listing_details "1" ["x", "Details", "A reasonably long line", "Save"]).title
        = fallbackTitle ["x", "Details", "A reasonably long line", "Save"] :=
  c10_no_condition_no_title_desc "1" ["x", "Details", "A reasonably long line", "Save"]
    (by decide)

/-- Claim C1, counterexample: the first anchor for identifier `123`
resolves but is dropped as noise (empty text, no record); the claim then
demands that the second anchor with the same identifier be classified
and emitted ($5 is a non-empty price, as the singleton run shows), yet
the pass emits nothing — the dedup step skips on *seen*, not on
*emitted*, identifiers. -/
theorem c1_counterexample :
    extract_listings_from_page [exNoise, exPriced] = [] ∧
      findItemId exNoise.href = some "123" ∧
      extract_listings_from_page [exPriced] =
        [{ listing_id := "123", title := "Listing 123", price := "$5", location := ""
           url := "https://www.facebook.com/marketplace/item/123", image_url := none }] := by
  refine ⟨by decide, by decide, by decide⟩

/-- Claim C2, counterexample: `exDetailsFirst` has a line equal to
`Details` (at index 0), yet phase B is skipped — the Python guard
`if details_idx:` treats index 0 as falsy — so the title comes from the
all-lines fallback (`Used - Good`) instead of the window scan's
`Great Fermenter Item`, and the description stays empty. -/
theorem c2_counterexample :
    "Details" ∈ exDetailsFirst ∧
      phaseBRuns exDetailsFirst = false ∧
      (get_listing_details "1" exDetailsFirst).title = "Used - Good" ∧
      (get_listing_details "1" exDetailsFirst).description = "" := by
  refine ⟨by decide, by decide, by decide, by decide⟩

/-- Claim C3, counterexample: in `exTermAfterCond` the terminator
`Message` immediately follows the `Condition` marker inside the window;
the claim says the scan must stop there with `Message` never captured,
but the code captures `Message` as the condition value (overriding the
`Brand new` that phase A's last-marker-wins rule recorded) and keeps
scanning, as the non-empty description shows. -/
theorem c3_counterexample :
    "Message" ∈ terminatorLines ∧
      (get_listing_details "1" exTermAfterCond).condition = some "Message" ∧
      (get_listing_details "1" exTermAfterCond).description =
        "More description here\nBrand new" ∧
      (phaseA exTermAfterCond).condition = some "Brand new" := by
  refine ⟨by decide, by decide, by decide, by decide⟩

/-- Claim C4, counterexample: in `exTwenty` the 20th line after the
`Details` marker exists (index 21), no line of the 20 following the
marker is a terminator, yet the window scan never examines it — the
window holds only 19 lines — so the line is not appended to the
description, which stays empty. -/
theorem c4_counterexample :
    exTwenty.getD 21 "" = "This is the twentieth line" ∧
      ((exTwenty.drop 2).take 20).all (fun l => !terminatorLines.contains l) = true ∧
      (scannedLines (phaseBWindow exTwenty 1)
          ⟨false, false, "", (phaseA exTwenty).condition, []⟩).contains
        "This is the twentieth line" = false ∧
      (scannedLines (phaseBWindow exTwenty 1)
          ⟨false, false, "", (phaseA exTwenty).condition, []⟩).length = 19 ∧
      (get_listing_details "1" exTwenty).description = "" := by
  refine ⟨by decide, by decide, by decide, by decide, by decide⟩

/-- Claim C5, counterexample: no line of `exCondApply` is equal to
`Condition`, so the claim says no condition is captured; but the code
tests `line.startswith('Condition')`, so `Conditions apply` triggers the
capture of the following line. -/
theorem c5_counterexample :
    exCondApply.contains "Condition" = false ∧
      (get_listing_details "1" exCondApply).condition = some "Some other value" := by
  refine ⟨by decide, by decide⟩

/-- Claim C6, counterexample: in `exBrighton` the marker at index `i = 1`
has the qualifying line `Brighton, UK` at index `i - 1 = 0`; the claim's
backward scan (clipped at index 0) would choose it, but the code's
`range(i-1, max(0, i-5), -1)` never visits index 0, so the location
stays empty. -/
theorem c6_counterexample :
    plausibleLoc "Brighton, UK" = true ∧
      exBrighton.getD 1 "" = "Location is approximate" ∧
      (get_listing_details "1" exBrighton).location = "" := by
  refine ⟨by decide, by decide, by decide⟩

end Scraper
